import Mathlib

/-!
Verification of the PIECE device extraction tool (`src/main.rs`).

Device memory is modelled as a total function `Nat → Nat`; `byteAt`
truncates to a byte.  Each operation of the program is embedded as a pure
function on this memory model, together with the trace of
`(address, length)` read requests it issues.
-/

namespace Piecer

/-- One byte of device memory at address `a`. -/
def byteAt (mem : Nat → Nat) (a : Nat) : Nat := mem a % 256

/-- The logical contents of `n` consecutive bytes of device memory
starting at address `a`. -/
def readBytes (mem : Nat → Nat) (a n : Nat) : List Nat :=
  (List.range n).map (fun i => byteAt mem (a + i))

/-- `u16::from_le_bytes` applied to the two bytes at address `a`. -/
def le16 (mem : Nat → Nat) (a : Nat) : Nat :=
  byteAt mem a + 256 * byteAt mem (a + 1)

/-- `u32::from_le_bytes` applied to the four bytes at address `a`. -/
def le32 (mem : Nat → Nat) (a : Nat) : Nat :=
  byteAt mem a + 256 * byteAt mem (a + 1) + 65536 * byteAt mem (a + 2) +
    16777216 * byteAt mem (a + 3)

/-- The loop of `Piece::get_memory`: with `bl` bytes still to read, it
issues a request for `min bl 32` bytes at `addr + len - bl`, subtracts
the chunk size from `bl`, and breaks when `bl` reaches zero.  Returns the
list of `(address, length)` read commands issued, in order. -/
def getMemoryLoop (addr len bl : Nat) : List (Nat × Nat) :=
  if _h : bl - min bl 32 = 0 then [(addr + len - bl, min bl 32)]
  else (addr + len - bl, min bl 32) :: getMemoryLoop addr len (bl - min bl 32)
termination_by bl
decreasing_by omega

/-- The read commands issued by `Piece::get_memory(addr, len)`. -/
def getMemoryRequests (addr len : Nat) : List (Nat × Nat) :=
  getMemoryLoop addr len len

/-- Concatenation of the device's responses to a list of read commands:
the device answers a request `(a, l)` with the `l` bytes at address `a`. -/
def chunkResponses (mem : Nat → Nat) (reqs : List (Nat × Nat)) : List Nat :=
  (reqs.map (fun r => readBytes mem r.1 r.2)).flatten

/-- A decoded directory entry (struct `DirEnt`); the name is kept as the
list of its bytes. -/
structure DirEnt where
  name : List Nat
  cluster : Nat
  len : Nat
  deriving DecidableEq

/-- `str::trim_matches(char::from(0))`: remove NUL bytes from both ends. -/
def trimName (l : List Nat) : List Nat :=
  (((l.dropWhile (· == 0)).reverse).dropWhile (· == 0)).reverse

/-- Address of directory slot `i`: `pffs_top + i * 32`. -/
def slotAddr (top i : Nat) : Nat := top + i * 32

/-- The test `dirent_raw[0] != 0x00 && dirent_raw[0] != 0xFF` of
`Piece::ls`. -/
def validSlot (mem : Nat → Nat) (top i : Nat) : Bool :=
  byteAt mem (slotAddr top i) != 0x00 && byteAt mem (slotAddr top i) != 0xFF

/-- Decoding of one 32-byte directory slot by `Piece::ls`: name is the
first 24 bytes NUL-trimmed, cluster is bytes 26..28 as little-endian u16,
length is bytes 28..32 as little-endian u32. -/
def decodeDirEnt (mem : Nat → Nat) (top i : Nat) : DirEnt :=
  { name := trimName ((readBytes mem (slotAddr top i) 32).take 24)
    cluster := le16 mem (slotAddr top i + 26)
    len := le32 mem (slotAddr top i + 28) }

/-- `Piece::ls`: for `i in 1..96`, read slot `i` and keep it when its
first byte is neither `0x00` nor `0xFF`. -/
def lsModel (mem : Nat → Nat) (top : Nat) : List DirEnt :=
  (List.range 95).filterMap (fun j =>
    if validSlot mem top (j + 1) then some (decodeDirEnt mem top (j + 1)) else none)

/-- The `get_memory` calls issued by `Piece::ls`: 32 bytes at each slot
address `pffs_top + i * 32`, `i = 1, …, 95`. -/
def lsTrace (top : Nat) : List (Nat × Nat) :=
  (List.range 95).map (fun j => (slotAddr top (j + 1), 32))

/-- The directory lookup of `Piece::download`: first entry of `ls()`
whose name equals the requested filename. -/
def findFile (mem : Nat → Nat) (top : Nat) (fname : List Nat) : Option DirEnt :=
  (lsModel mem top).find? (fun d => d.name == fname)

/-- The chain-table lookup
`u16::from_le_bytes(clusters_raw[c*2 .. c*2+2])`: `clusters_raw` holds
the `496*2` bytes read from `pffs_top + 97*32`, so entry `c` sits at
address `pffs_top + 97*32 + c*2`. -/
def chainNext (mem : Nat → Nat) (top c : Nat) : Nat :=
  le16 mem (top + 97 * 32 + c * 2)

/-- Address of the cluster read in the download loop:
`pffs_top + 97*32 + 496*2 + c*4096 - 4096`. -/
def clusterAddr (top c : Nat) : Nat :=
  top + 97 * 32 + 496 * 2 + c * 4096 - 4096

/-- The 4096 bytes of data cluster `c`. -/
def clusterData (mem : Nat → Nat) (top c : Nat) : List Nat :=
  readBytes mem (clusterAddr top c) 4096

/-- The cluster-chain loop of `Piece::download`, on (fuel, current
cluster, `data_left`).  Each iteration reads the 4096 bytes of the
current cluster, writes the first `min data_left 4096` of them, looks up
the next cluster in the chain table (the slice `clusters_raw[c*2..c*2+2]`
exists only when `c*2+2 ≤ 496*2`; otherwise the program panics, modelled
by the `false` flag), and stops when the next value exceeds `0x8000`.
Returns (clusters read in order, bytes written, normal termination). -/
def chainWalk (mem : Nat → Nat) (top : Nat) : Nat → Nat → Nat → List Nat × List Nat × Bool
  | 0, _, _ => ([], [], false)
  | fuel + 1, cluster, dataLeft =>
    let out := (clusterData mem top cluster).take (min dataLeft 4096)
    if cluster * 2 + 2 ≤ 496 * 2 then
      if 0x8000 < chainNext mem top cluster then ([cluster], out, true)
      else
        let r := chainWalk mem top fuel (chainNext mem top cluster) (dataLeft - min dataLeft 4096)
        (cluster :: r.1, out ++ r.2.1, r.2.2)
    else ([cluster], out, false)

/-- `Piece::download`: look the filename up in the directory (error
"Could not find file to download" when absent), then walk the cluster
chain from the entry's first cluster with `data_left = length`.  Returns
the clusters read and the bytes written to the output file. -/
def downloadRun (mem : Nat → Nat) (top fuel : Nat) (fname : List Nat) :
    Except String (List Nat × List Nat) :=
  match findFile mem top fname with
  | none => Except.error "Could not find file to download"
  | some d =>
    let w := chainWalk mem top fuel d.cluster d.len
    if w.2.2 then Except.ok (w.1, w.2.1) else Except.error "chain walk aborted"

/-- The `get_memory` calls issued by `Piece::download`, in order: the
cluster-chain table (`496*2` bytes at `pffs_top + 97*32`), then the 95
directory-slot reads of `ls()`, then one 4096-byte read per cluster
visited by the chain walk (none when the file is not found, since the
program aborts before the loop). -/
def downloadTrace (mem : Nat → Nat) (top fuel : Nat) (fname : List Nat) : List (Nat × Nat) :=
  (top + 97 * 32, 496 * 2) ::
    (lsTrace top ++
      match findFile mem top fname with
      | none => []
      | some d =>
        (chainWalk mem top fuel d.cluster d.len).1.map (fun c => (clusterAddr top c, 4096)))

/-- `Piece::get_screenshot` after the 12-byte descriptor `lcd` has been
read: assert `lcd[2] = 128` and `lcd[4] = 88` (in that order); on
success, read 128 bytes per row at `lcd_addr + y*128` for the 88 rows,
where `lcd_addr` is bytes 8..12 as little-endian u32.  Returns the
bitmap read requests issued and whether the assertions passed. -/
def screenshotModel (lcd : Nat → Nat) : List (Nat × Nat) × Bool :=
  if byteAt lcd 2 = 128 then
    if byteAt lcd 4 = 88 then
      ((List.range 88).map (fun y => (le32 lcd 8 + y * 128, 128)), true)
    else ([], false)
  else ([], false)

/-- Writing a chunk of bytes into a buffer at a given offset, as the
bulk reads of `get_memory` do. -/
def storeAt (buf : List Nat) (off : Nat) (data : List Nat) : List Nat :=
  buf.take off ++ data ++ buf.drop (off + data.length)

/-- The single `get_memory` call of `Commands::Dump`. -/
def dumpReads : List (Nat × Nat) := [(0xc00000, 2097142)]

/-- The bytes written to `dump.img` by `Commands::Dump`: a 2097152-byte
zero buffer into which `get_memory(0xc00000, 2097142)` stores its
result. -/
def dumpOutput (mem : Nat → Nat) : List Nat :=
  storeAt (List.replicate 2097152 0) 0 (readBytes mem 0xc00000 2097142)

/-- All-zero device memory: every directory slot is empty. -/
def memZero : Nat → Nat := fun _ => 0

/-- Device memory (with `pffs_top = 0`) holding one file "A" (byte 65)
of length 5000 at first cluster 1, whose chain entry points to cluster 2,
whose own chain entry is the terminal value `0x9000`. -/
def memTwoCluster : Nat → Nat := fun a =>
  if a = 32 then 65
  else if a = 58 then 1
  else if a = 60 then 136
  else if a = 61 then 19
  else if a = 3106 then 2
  else if a = 3109 then 144
  else 0

/-- Device memory (with `pffs_top = 0`) whose slot 1 name bytes are
`65, 0, 66`: a valid slot with an interior NUL. -/
def memNulName : Nat → Nat := fun a =>
  if a = 32 then 65 else if a = 34 then 66 else 0

/-- Device memory (with `pffs_top = 0`) holding one file "B" (byte 66)
of length 0 at first cluster 1, whose chain entry is terminal. -/
def memZeroLen : Nat → Nat := fun a =>
  if a = 32 then 66 else if a = 58 then 1 else if a = 3107 then 144 else 0

/-! ## Basic facts about the memory model -/

theorem length_readBytes (mem : Nat → Nat) (a n : Nat) :
    (readBytes mem a n).length = n := by
  simp [readBytes]

theorem readBytes_add (mem : Nat → Nat) (a m n : Nat) :
    readBytes mem a (m + n) = readBytes mem a m ++ readBytes mem (a + m) n := by
  simp only [readBytes, List.range_add, List.map_append, List.map_map]
  congr 1
  apply List.map_congr_left
  intro i _
  simp [Function.comp, Nat.add_assoc]

theorem readBytes_succ (mem : Nat → Nat) (a n : Nat) :
    readBytes mem a (n + 1) = byteAt mem a :: readBytes mem (a + 1) n := by
  have h := readBytes_add mem a 1 n
  have h1 : 1 + n = n + 1 := by omega
  rw [h1] at h
  rw [h]
  rfl

/-! ## The chunked read loop of `get_memory` -/

theorem getMemoryLoop_eq (addr len : Nat) :
    ∀ bl, 0 < bl → bl ≤ len →
      getMemoryLoop addr len bl =
        (List.range ((bl + 31) / 32)).map
          (fun i => (addr + (len - bl) + 32 * i, min (bl - 32 * i) 32)) := by
  intro bl
  induction bl using Nat.strong_induction_on with
  | _ bl ih =>
    intro hpos hle
    rw [getMemoryLoop]
    by_cases hsmall : bl ≤ 32
    · have h1 : bl - min bl 32 = 0 := by omega
      have h2 : (bl + 31) / 32 = 1 := by omega
      have hr : List.range 1 = [0] := rfl
      rw [dif_pos h1, h2, hr]
      simp only [List.map_cons, List.map_nil, List.cons.injEq, Prod.mk.injEq, and_true]
      constructor <;> omega
    · have h1 : ¬(bl - min bl 32 = 0) := by omega
      have hmin : min bl 32 = 32 := by omega
      have hk : (bl + 31) / 32 = ((bl - 32) + 31) / 32 + 1 := by omega
      rw [dif_neg h1, hmin, hk, List.range_succ_eq_map, List.map_cons, List.map_map]
      rw [ih (bl - 32) (by omega) (by omega) (by omega)]
      congr 1
      · simp only [Prod.mk.injEq]
        constructor <;> omega
      · apply List.map_congr_left
        intro i _
        simp only [Function.comp, Prod.mk.injEq]
        constructor <;> omega

theorem getMemoryLoop_concat (mem : Nat → Nat) (addr len : Nat) :
    ∀ bl, bl ≤ len →
      chunkResponses mem (getMemoryLoop addr len bl) =
        readBytes mem (addr + (len - bl)) bl := by
  intro bl
  induction bl using Nat.strong_induction_on with
  | _ bl ih =>
    intro hle
    rw [getMemoryLoop]
    by_cases hsmall : bl - min bl 32 = 0
    · have hmin : min bl 32 = bl := by omega
      rw [dif_pos hsmall, hmin]
      simp only [chunkResponses, List.map_cons, List.map_nil, List.flatten_cons,
        List.flatten_nil, List.append_nil]
      congr 1
      omega
    · have hmin : min bl 32 = 32 := by omega
      rw [dif_neg hsmall, hmin]
      simp only [chunkResponses, List.map_cons, List.flatten_cons]
      have hrec := ih (bl - 32) (by omega) (by omega)
      simp only [chunkResponses] at hrec
      rw [hrec]
      have hsplit : readBytes mem (addr + (len - bl)) bl =
          readBytes mem (addr + (len - bl)) 32 ++
            readBytes mem (addr + (len - bl) + 32) (bl - 32) := by
        have h32 : bl = 32 + (bl - 32) := by omega
        rw [h32, readBytes_add]
        congr 2
        omega
      rw [hsplit]
      congr 2
      · omega
      · omega

/-- C3 (amended): for every `addr` and every `len > 0`, `get_memory`
issues exactly `⌈len/32⌉` read requests, the `i`-th asking for
`min (len - 32*i) 32` bytes at `addr + 32*i` (that is, `min remaining 32`
bytes at `addr + (len - remaining)`), and the concatenation of the
responses equals the single logical read of `len` bytes at `addr`.  For
`len = 0` the loop still issues one request of 0 bytes (see the
counterexample), so the request count `⌈len/32⌉` holds only for
`len > 0`. -/
theorem getMemory_chunking (addr len : Nat) (hlen : 0 < len) :
    getMemoryRequests addr len =
      (List.range ((len + 31) / 32)).map
        (fun i => (addr + 32 * i, min (len - 32 * i) 32)) ∧
    ∀ mem, chunkResponses mem (getMemoryRequests addr len) = readBytes mem addr len := by
  constructor
  · have h := getMemoryLoop_eq addr len len hlen (le_refl len)
    rw [getMemoryRequests, h]
    apply List.map_congr_left
    intro i _
    simp only [Prod.mk.injEq, and_true]
    omega
  · intro mem
    have h := getMemoryLoop_concat mem addr len len (le_refl len)
    simp only [Nat.sub_self, Nat.add_zero] at h
    rw [getMemoryRequests, h]

/-- C3 witness: at `addr = 5`, `len = 50` the loop issues
`⌈50/32⌉ = 2` requests, of 32 and 18 bytes, reassembling the logical
50-byte read. -/
theorem getMemory_chunking_witness :
    getMemoryRequests 5 50 =
      (List.range ((50 + 31) / 32)).map
        (fun i => (5 + 32 * i, min (50 - 32 * i) 32)) ∧
    ∀ mem, chunkResponses mem (getMemoryRequests 5 50) = readBytes mem 5 50 :=
  getMemory_chunking 5 50 (by decide)

/-- C3 counterexample: at `len = 0` the do-while loop of `get_memory`
issues one request (of 0 bytes), not `⌈0/32⌉ = 0` requests as claimed. -/
theorem getMemory_chunking_cx :
    getMemoryRequests 7 0 = [(7, 0)] ∧
    (getMemoryRequests 7 0).length = 1 ∧ (0 + 31) / 32 = 0 := by
  refine ⟨?_, ?_, by norm_num⟩ <;> simp [getMemoryRequests, getMemoryLoop]

/-! ## Directory-entry decoding -/

theorem trimName_decomp (l : List Nat) (b : Nat) (hhead : l.head? = some b)
    (hb : b ≠ 0) :
    (∃ suf, l = trimName l ++ suf ∧ ∀ x ∈ suf, x = 0) ∧
    (trimName l).head? = some b := by
  obtain ⟨t, rfl⟩ : ∃ t, l = b :: t := by
    cases l with
    | nil => simp at hhead
    | cons c t => simp at hhead; exact ⟨t, by rw [hhead]⟩
  have hdrop : (b :: t).dropWhile (· == 0) = b :: t := by
    rw [List.dropWhile_cons]
    simp [hb]
  have hsplit : ∃ suf, b :: t = trimName (b :: t) ++ suf ∧ ∀ x ∈ suf, x = 0 := by
    refine ⟨(((b :: t).reverse).takeWhile (· == 0)).reverse, ?_, ?_⟩
    · unfold trimName
      rw [hdrop]
      conv_lhs => rw [← List.reverse_reverse (b :: t)]
      conv_lhs => rw [← List.takeWhile_append_dropWhile (p := (· == 0)) (l := (b :: t).reverse)]
      rw [List.reverse_append]
    · intro x hx
      rw [List.mem_reverse] at hx
      have := List.mem_takeWhile_imp hx
      simpa using this
  refine ⟨hsplit, ?_⟩
  obtain ⟨suf, heq, hsuf⟩ := hsplit
  have hne : trimName (b :: t) ≠ [] := by
    intro hnil
    rw [hnil, List.nil_append] at heq
    have : b = 0 := hsuf b (by rw [← heq]; exact List.mem_cons_self b t)
    exact hb this
  cases htn : trimName (b :: t) with
  | nil => exact absurd htn hne
  | cons c cs =>
    rw [htn, List.cons_append] at heq
    rw [List.head?_cons]
    exact congrArg some (by injection heq with h1 _; exact h1.symm)

theorem take24_readBytes (mem : Nat → Nat) (s : Nat) :
    ((readBytes mem s 32).take 24).head? = some (byteAt mem s) := by
  have h : readBytes mem s 32 = byteAt mem s :: readBytes mem (s + 1) 31 :=
    readBytes_succ mem s 31
  rw [h]
  rfl

/-- Membership in `lsModel` comes from a unique valid slot. -/
theorem lsModel_mem (mem : Nat → Nat) (top : Nat) :
    ∀ d ∈ lsModel mem top,
      ∃ i, 1 ≤ i ∧ i ≤ 95 ∧ validSlot mem top i = true ∧ d = decodeDirEnt mem top i := by
  intro d hd
  rw [lsModel, List.mem_filterMap] at hd
  obtain ⟨j, hj, hdj⟩ := hd
  rw [List.mem_range] at hj
  by_cases hv : validSlot mem top (j + 1)
  · rw [if_pos hv] at hdj
    exact ⟨j + 1, by omega, by omega, hv, by injection hdj with h; exact h.symm⟩
  · rw [if_neg hv] at hdj
    exact absurd hdj (by simp)

theorem validSlot_first_byte (mem : Nat → Nat) (top i : Nat)
    (hv : validSlot mem top i = true) :
    byteAt mem (slotAddr top i) ≠ 0 ∧ byteAt mem (slotAddr top i) ≠ 0xFF := by
  rw [validSlot, Bool.and_eq_true, bne_iff_ne, bne_iff_ne] at hv
  exact hv

/-- C4 (amended): for every valid (non-skipped) directory slot, the
decoded name is the first 24 slot bytes with NUL trimmed from both ends
— leading trimming is vacuous since the slot's first byte is non-NUL, so
the name is the first 24 bytes less a run of trailing NULs, and it
retains the first byte; embedded NULs, however, survive trimming (see
the counterexample).  The cluster is bytes 26–28 decoded as
little-endian u16 and the length is bytes 28–32 decoded as little-endian
u32. -/
theorem dirent_decode (mem : Nat → Nat) (top i : Nat)
    (hv : validSlot mem top i = true) :
    (∃ suf, (readBytes mem (slotAddr top i) 32).take 24 =
        (decodeDirEnt mem top i).name ++ suf ∧ ∀ x ∈ suf, x = 0) ∧
    (decodeDirEnt mem top i).name.head? = some (byteAt mem (slotAddr top i)) ∧
    (decodeDirEnt mem top i).cluster =
      byteAt mem (slotAddr top i + 26) + 256 * byteAt mem (slotAddr top i + 27) ∧
    (decodeDirEnt mem top i).len =
      byteAt mem (slotAddr top i + 28) + 256 * byteAt mem (slotAddr top i + 29) +
        65536 * byteAt mem (slotAddr top i + 30) +
        16777216 * byteAt mem (slotAddr top i + 31) := by
  have hb := (validSlot_first_byte mem top i hv).1
  have hh := take24_readBytes mem (slotAddr top i)
  have hd := trimName_decomp ((readBytes mem (slotAddr top i) 32).take 24) _ hh hb
  refine ⟨hd.1, hd.2, ?_, ?_⟩
  · show le16 mem (slotAddr top i + 26) = _
    rw [le16]
  · show le32 mem (slotAddr top i + 28) = _
    rw [le32]

/-- C4 witness: the amended decoding facts at the valid slot 1 of
`memTwoCluster`. -/
theorem dirent_decode_witness :
    (∃ suf, (readBytes memTwoCluster (slotAddr 0 1) 32).take 24 =
        (decodeDirEnt memTwoCluster 0 1).name ++ suf ∧ ∀ x ∈ suf, x = 0) ∧
    (decodeDirEnt memTwoCluster 0 1).name.head? =
      some (byteAt memTwoCluster (slotAddr 0 1)) ∧
    (decodeDirEnt memTwoCluster 0 1).cluster =
      byteAt memTwoCluster (slotAddr 0 1 + 26) +
        256 * byteAt memTwoCluster (slotAddr 0 1 + 27) ∧
    (decodeDirEnt memTwoCluster 0 1).len =
      byteAt memTwoCluster (slotAddr 0 1 + 28) +
        256 * byteAt memTwoCluster (slotAddr 0 1 + 29) +
        65536 * byteAt memTwoCluster (slotAddr 0 1 + 30) +
        16777216 * byteAt memTwoCluster (slotAddr 0 1 + 31) :=
  dirent_decode memTwoCluster 0 1 (by decide)

/-- C4 counterexample: slot 1 of `memNulName` is valid (first byte 65),
yet its decoded name `[65, 0, 66]` still contains a NUL after trimming:
`trim_matches` removes NULs only from the ends, not embedded ones. -/
theorem dirent_embedded_nul_cx :
    validSlot memNulName 0 1 = true ∧
    decodeDirEnt memNulName 0 1 ∈ lsModel memNulName 0 ∧
    (decodeDirEnt memNulName 0 1).name = [65, 0, 66] ∧
    0 ∈ (decodeDirEnt memNulName 0 1).name := by
  decide

/-- C10: every directory entry returned by `ls` has a non-empty name:
an accepted slot's first byte is neither 0x00 nor 0xFF, and trimming
removes only NULs from the ends, so the trimmed name retains the
first byte. -/
theorem ls_name_nonempty (mem : Nat → Nat) (top : Nat) :
    ∀ d ∈ lsModel mem top, d.name ≠ [] := by
  intro d hd
  obtain ⟨i, _, _, hv, rfl⟩ := lsModel_mem mem top d hd
  have hb := (validSlot_first_byte mem top i hv).1
  have hh := take24_readBytes mem (slotAddr top i)
  have hhead : (decodeDirEnt mem top i).name.head? = some (byteAt mem (slotAddr top i)) :=
    (trimName_decomp ((readBytes mem (slotAddr top i) 32).take 24) _ hh hb).2
  intro hnil
  rw [hnil] at hhead
  simp at hhead

/-- C10 witness: the single entry of `lsModel memTwoCluster 0` has the
non-empty name `[65]`. -/
theorem ls_name_nonempty_witness :
    (⟨[65], 1, 5000⟩ : DirEnt) ∈ lsModel memTwoCluster 0 ∧
    (⟨[65], 1, 5000⟩ : DirEnt).name ≠ [] :=
  ⟨by decide, ls_name_nonempty memTwoCluster 0 _ (by decide)⟩

theorem filterMap_guard {α β : Type} (f : α → β) (p : α → Bool) (l : List α) :
    l.filterMap (fun i => if p i then some (f i) else none) = (l.filter p).map f := by
  induction l with
  | nil => rfl
  | cons a t ih =>
    by_cases h : p a <;> simp [List.filterMap_cons, List.filter_cons, h, ih]

/-- C5: `ls` reads the 95 directory slots at `pffs_top + 32`,
`pffs_top + 64`, …, `pffs_top + 95*32` (slot 0 skipped); it returns
exactly the decodes of the slots whose first byte is neither 0x00 nor
0xFF, in ascending slot order (the accepted slot indices are strictly
increasing), not sorted by name. -/
theorem ls_slot_order (mem : Nat → Nat) (top : Nat) :
    lsTrace top = (List.range 95).map (fun j => (top + 32 + 32 * j, 32)) ∧
    lsModel mem top =
      (((List.range 95).map (fun j => j + 1)).filter
        (fun i => validSlot mem top i)).map (decodeDirEnt mem top) ∧
    List.Sorted (· < ·)
      (((List.range 95).map (fun j => j + 1)).filter (fun i => validSlot mem top i)) ∧
    ∀ d ∈ lsModel mem top,
      ∃ i, 1 ≤ i ∧ i ≤ 95 ∧
        byteAt mem (slotAddr top i) ≠ 0x00 ∧ byteAt mem (slotAddr top i) ≠ 0xFF ∧
        d = decodeDirEnt mem top i := by
  refine ⟨?_, ?_, ?_, ?_⟩
  · rw [lsTrace]
    apply List.map_congr_left
    intro j _
    simp only [Prod.mk.injEq, and_true, slotAddr]
    omega
  · rw [lsModel, ← filterMap_guard (decodeDirEnt mem top) (fun i => validSlot mem top i),
        List.filterMap_map]
    rfl
  · apply List.Pairwise.sublist (List.filter_sublist _)
    exact List.Pairwise.map _ (fun a b h => by omega) (List.pairwise_lt_range 95)
  · intro d hd
    obtain ⟨i, h1, h2, hv, hdec⟩ := lsModel_mem mem top d hd
    obtain ⟨hb0, hbf⟩ := validSlot_first_byte mem top i hv
    exact ⟨i, h1, h2, hb0, hbf, hdec⟩

/-- C5 witness: on `memTwoCluster` the listing is the single entry of
slot 1, and slot 1 is accepted with first byte 65. -/
theorem ls_slot_order_witness :
    lsModel memTwoCluster 0 = [⟨[65], 1, 5000⟩] ∧
    (∃ i, 1 ≤ i ∧ i ≤ 95 ∧
      byteAt memTwoCluster (slotAddr 0 i) ≠ 0x00 ∧
      byteAt memTwoCluster (slotAddr 0 i) ≠ 0xFF ∧
      (⟨[65], 1, 5000⟩ : DirEnt) = decodeDirEnt memTwoCluster 0 i) :=
  ⟨by decide, (ls_slot_order memTwoCluster 0).2.2.2 _ (by decide)⟩

/-! ## The download chain walk -/

theorem chainWalk_out_zero (mem : Nat → Nat) (top : Nat) :
    ∀ fuel c, (chainWalk mem top fuel c 0).2.1 = [] := by
  intro fuel
  induction fuel with
  | zero => intro c; rfl
  | succ n ih =>
    intro c
    by_cases hb : c * 2 + 2 ≤ 496 * 2
    · by_cases hs : 0x8000 < chainNext mem top c
      · simp [chainWalk, hb, hs]
      · simp [chainWalk, hb, hs, ih]
    · simp [chainWalk, hb]

theorem chainWalk_head (mem : Nat → Nat) (top fuel c dl : Nat) (hfuel : 1 ≤ fuel) :
    (chainWalk mem top fuel c dl).1.head? = some c := by
  obtain ⟨k, rfl⟩ : ∃ k, fuel = k + 1 := ⟨fuel - 1, by omega⟩
  by_cases hb : c * 2 + 2 ≤ 496 * 2
  · by_cases hs : 0x8000 < chainNext mem top c <;> simp [chainWalk, hb, hs]
  · simp [chainWalk, hb]

/-- One non-terminal iteration of the download loop: the chain entry of
`c` exists and is not a sentinel, so the loop reads cluster `c`, writes
`min dl 4096` of its bytes and continues at `chainNext c` with
`dl - min dl 4096` bytes left. -/
theorem chainWalk_succ (mem : Nat → Nat) (top fuel c dl : Nat)
    (hb : c * 2 + 2 ≤ 496 * 2) (hs : ¬ 0x8000 < chainNext mem top c) :
    chainWalk mem top (fuel + 1) c dl =
      (c :: (chainWalk mem top fuel (chainNext mem top c) (dl - min dl 4096)).1,
       (clusterData mem top c).take (min dl 4096) ++
         (chainWalk mem top fuel (chainNext mem top c) (dl - min dl 4096)).2.1,
       (chainWalk mem top fuel (chainNext mem top c) (dl - min dl 4096)).2.2) := by
  rw [show fuel + 1 = Nat.succ fuel from rfl, chainWalk.eq_2, if_pos hb, if_neg hs]

/-- The terminal iteration of the download loop: the chain entry of `c`
exceeds 0x8000, so the loop reads cluster `c`, writes `min dl 4096` of
its bytes and stops. -/
theorem chainWalk_term (mem : Nat → Nat) (top fuel c dl : Nat)
    (hb : c * 2 + 2 ≤ 496 * 2) (hs : 0x8000 < chainNext mem top c) :
    chainWalk mem top (fuel + 1) c dl =
      ([c], (clusterData mem top c).take (min dl 4096), true) := by
  rw [show fuel + 1 = Nat.succ fuel from rfl, chainWalk.eq_2, if_pos hb, if_pos hs]

theorem downloadTrace_drop (mem : Nat → Nat) (top fuel : Nat) (fname : List Nat)
    (d : DirEnt) (hfind : findFile mem top fname = some d) :
    (downloadTrace mem top fuel fname).drop 96 =
      (chainWalk mem top fuel d.cluster d.len).1.map
        (fun c => (clusterAddr top c, 4096)) := by
  simp only [downloadTrace, hfind]
  have hstep : ((top + 97 * 32, 496 * 2) ::
      (lsTrace top ++ (chainWalk mem top fuel d.cluster d.len).1.map
        (fun c => (clusterAddr top c, 4096)))).drop 96 =
      (lsTrace top ++ (chainWalk mem top fuel d.cluster d.len).1.map
        (fun c => (clusterAddr top c, 4096))).drop 95 := rfl
  rw [hstep]
  have hl : (95 : Nat) = (lsTrace top).length := by simp [lsTrace]
  rw [hl, List.drop_left]

/-- C9: whenever `download` finds a directory entry — including one of
length 0 — the chain-walk loop body runs at least once: the first
cluster read of the walk is the full 4096 bytes of the entry's first
cluster (it is consulted before the termination sentinel is ever
checked), and for a zero-length file the walk still reads that cluster
while writing 0 bytes to the output file. -/
theorem download_loop_runs_once (mem : Nat → Nat) (top fuel : Nat) (fname : List Nat)
    (d : DirEnt) (hfind : findFile mem top fname = some d) (hfuel : 1 ≤ fuel) :
    (chainWalk mem top fuel d.cluster d.len).1.head? = some d.cluster ∧
    ((downloadTrace mem top fuel fname).drop 96).head? =
      some (clusterAddr top d.cluster, 4096) ∧
    (d.len = 0 → (chainWalk mem top fuel d.cluster d.len).2.1 = []) := by
  refine ⟨chainWalk_head mem top fuel d.cluster d.len hfuel, ?_, ?_⟩
  · rw [downloadTrace_drop mem top fuel fname d hfind, List.head?_map,
      chainWalk_head mem top fuel d.cluster d.len hfuel]
    rfl
  · intro h0
    rw [h0]
    exact chainWalk_out_zero mem top fuel d.cluster

/-- C9 witness: on `memZeroLen` the file "B" has length 0 and first
cluster 1; `download` still reads cluster 1 (4096 bytes at address
4096) and writes nothing. -/
theorem download_loop_runs_once_witness :
    (chainWalk memZeroLen 0 1 1 0).1.head? = some 1 ∧
    ((downloadTrace memZeroLen 0 1 [66]).drop 96).head? =
      some (clusterAddr 0 1, 4096) ∧
    ((0 : Nat) = 0 → (chainWalk memZeroLen 0 1 1 0).2.1 = []) :=
  download_loop_runs_once memZeroLen 0 1 [66] ⟨[66], 1, 0⟩ (by decide) (by decide)

/-- C1 (amended): `download` loads the 992-byte cluster-chain table
from `pffs_top + 97*32` — that is, 32 bytes past the end of the 96×32
directory region, immediately after a 97-slot region — and each cluster
`c ≥ 1` visited by the chain walk is read as exactly 4096 bytes at
`pffs_top + 97*32 + 992 + (c-1)*4096`, the data region beginning
immediately after that table. -/
theorem download_layout (mem : Nat → Nat) (top fuel : Nat) (fname : List Nat) :
    (downloadTrace mem top fuel fname).head? = some (top + 97 * 32, 496 * 2) ∧
    (∀ c, 1 ≤ c →
      clusterAddr top c = top + 97 * 32 + 496 * 2 + (c - 1) * 4096) ∧
    (∀ d, findFile mem top fname = some d →
      (downloadTrace mem top fuel fname).drop 96 =
        (chainWalk mem top fuel d.cluster d.len).1.map
          (fun c => (clusterAddr top c, 4096))) :=
  ⟨rfl,
   fun c hc => by rw [clusterAddr]; omega,
   fun d hd => downloadTrace_drop mem top fuel fname d hd⟩

/-- C1 witness: with `pffs_top = 0` the first read of `download` is the
992-byte table at 3104 = 97*32; cluster 5's data read address is
`97*32 + 992 + 4*4096`; and the cluster reads of the two-cluster file of
`memTwoCluster` are the mapped walk. -/
theorem download_layout_witness :
    (downloadTrace memTwoCluster 0 2 [65]).head? = some (0 + 97 * 32, 496 * 2) ∧
    clusterAddr 0 5 = 0 + 97 * 32 + 496 * 2 + (5 - 1) * 4096 ∧
    (downloadTrace memTwoCluster 0 2 [65]).drop 96 =
      (chainWalk memTwoCluster 0 2 1 5000).1.map (fun c => (clusterAddr 0 c, 4096)) :=
  ⟨(download_layout memTwoCluster 0 2 [65]).1,
   (download_layout memTwoCluster 0 2 [65]).2.1 5 (by norm_num),
   (download_layout memTwoCluster 0 2 [65]).2.2 ⟨[65], 1, 5000⟩ (by decide)⟩

/-- C1 counterexample: the cluster-chain table is loaded by the first
`get_memory` call of `download` at `pffs_top + 3104` (here `pffs_top =
0`), and `3104 = 97*32 ≠ 96*32`: the table does not sit immediately
after a 96-slot directory region as the claim states. -/
theorem download_table_addr_cx :
    (downloadTrace memZero 0 1 []).head? = some (3104, 992) ∧
    (3104 : Nat) = 97 * 32 ∧ ¬ (3104 : Nat) = 96 * 32 :=
  ⟨rfl, by norm_num, by norm_num⟩

/-- C6: when no directory entry's name matches, `download` fails with
the file-not-found error, and none of the reads it performed is a
4096-byte cluster read (only the 992-byte table load and the 95
32-byte slot reads happen before the failure). -/
theorem download_not_found (mem : Nat → Nat) (top fuel : Nat) (fname : List Nat)
    (h : ∀ d ∈ lsModel mem top, d.name ≠ fname) :
    downloadRun mem top fuel fname = Except.error "Could not find file to download" ∧
    ∀ r ∈ downloadTrace mem top fuel fname, r.2 ≠ 4096 := by
  have hfind : findFile mem top fname = none := by
    rw [findFile, List.find?_eq_none]
    intro d hd
    simpa using h d hd
  constructor
  · simp only [downloadRun, hfind]
  · intro r hr
    simp only [downloadTrace, hfind, List.append_nil] at hr
    rcases List.mem_cons.mp hr with h1 | h2
    · rw [h1]
      norm_num
    · rw [lsTrace] at h2
      obtain ⟨j, _, rfl⟩ := List.mem_map.mp h2
      norm_num

/-- C6 witness: downloading "M" (byte 77) from the empty directory of
`memZero` fails with the file-not-found error and performs no
4096-byte cluster read. -/
theorem download_not_found_witness :
    downloadRun memZero 0 1 [77] = Except.error "Could not find file to download" ∧
    ∀ r ∈ downloadTrace memZero 0 1 [77], r.2 ≠ 4096 :=
  download_not_found memZero 0 1 [77] (by decide)

/-- C7: the screenshot descriptor check passes exactly when descriptor
byte 2 (width) is 128 and byte 4 (height) is 88 — the assertions are
checked before any bitmap read, so on any other width or height the
capture fails having issued no bitmap read, while on success the 88
row reads of 128 bytes each are issued at `base + y*128`. -/
theorem screenshot_dims (lcd : Nat → Nat) :
    (screenshotModel lcd).2 = ((byteAt lcd 2 == 128) && (byteAt lcd 4 == 88)) ∧
    ((screenshotModel lcd).2 = false → (screenshotModel lcd).1 = []) ∧
    ((screenshotModel lcd).2 = true →
      (screenshotModel lcd).1 =
        (List.range 88).map (fun y => (le32 lcd 8 + y * 128, 128))) := by
  by_cases h2 : byteAt lcd 2 = 128 <;> by_cases h4 : byteAt lcd 4 = 88 <;>
    simp [screenshotModel, h2, h4]

/-- C7 witness: an all-zero descriptor (width 0, height 0) fails the
check with no bitmap read issued. -/
theorem screenshot_dims_witness :
    (screenshotModel memZero).2 = ((byteAt memZero 2 == 128) && (byteAt memZero 4 == 88)) ∧
    ((screenshotModel memZero).2 = false → (screenshotModel memZero).1 = []) ∧
    ((screenshotModel memZero).2 = true →
      (screenshotModel memZero).1 =
        (List.range 88).map (fun y => (le32 memZero 8 + y * 128, 128))) :=
  screenshot_dims memZero

theorem dumpOutput_eq (mem : Nat → Nat) :
    dumpOutput mem = readBytes mem 0xc00000 2097142 ++ List.replicate 10 0 := by
  rw [dumpOutput, storeAt, List.take_zero, List.nil_append, length_readBytes,
    List.drop_replicate]

/-- C8: `dump_flash` is a single `get_memory` call for 2097142 bytes at
absolute address 0xc00000, stored at offset 0 of a 2097152-byte
zero-filled buffer, so the written output is 2097152 bytes whose final
10 bytes are still zero. -/
theorem dump_layout (mem : Nat → Nat) :
    dumpReads = [(0xc00000, 2097142)] ∧
    (dumpOutput mem).length = 2097152 ∧
    (dumpOutput mem).drop 2097142 = List.replicate 10 0 := by
  refine ⟨rfl, ?_, ?_⟩
  · rw [dumpOutput_eq, List.length_append, length_readBytes, List.length_replicate]
  · rw [dumpOutput_eq]
    generalize hR : readBytes mem 0xc00000 2097142 = R
    have hlen : R.length = 2097142 := by rw [← hR, length_readBytes]
    rw [← hlen, List.drop_left]

/-- C2: for a directory entry of length 5000 bytes whose chain links
its first cluster `N` to a second cluster `M = chain-next(N)` (a real
cluster: `M ≤ 0x8000`, and both within the 496-entry table) whose own
next-value is a terminal sentinel (`> 0x8000`), `download` writes
exactly 5000 bytes: all 4096 bytes of cluster `N` followed by the first
904 bytes of cluster `M`, and the traversal reads no third cluster. -/
theorem download_two_clusters (mem : Nat → Nat) (top fuel : Nat) (fname : List Nat)
    (d : DirEnt) (hfind : findFile mem top fname = some d) (hlen : d.len = 5000)
    (hc : d.cluster ≤ 495)
    (hM : chainNext mem top d.cluster ≤ 0x8000)
    (hMc : chainNext mem top d.cluster ≤ 495)
    (hterm : 0x8000 < chainNext mem top (chainNext mem top d.cluster))
    (hfuel : 2 ≤ fuel) :
    downloadRun mem top fuel fname =
      Except.ok ([d.cluster, chainNext mem top d.cluster],
        clusterData mem top d.cluster ++
          (clusterData mem top (chainNext mem top d.cluster)).take 904) ∧
    (clusterData mem top d.cluster ++
      (clusterData mem top (chainNext mem top d.cluster)).take 904).length = 5000 := by
  obtain ⟨k, rfl⟩ : ∃ k, fuel = k + 2 := ⟨fuel - 2, by omega⟩
  have hb1 : d.cluster * 2 + 2 ≤ 496 * 2 := by omega
  have hs1 : ¬ (0x8000 < chainNext mem top d.cluster) := by omega
  have hb2 : chainNext mem top d.cluster * 2 + 2 ≤ 496 * 2 := by omega
  have e0 : min 5000 4096 = 4096 := by norm_num
  have e1 : (5000 : Nat) - 4096 = 904 := by norm_num
  have e2 : min 904 4096 = 904 := by norm_num
  have htake : (clusterData mem top d.cluster).take 4096 =
      clusterData mem top d.cluster := by
    apply List.take_of_length_le
    rw [clusterData, length_readBytes]
  have hw : chainWalk mem top (k + 2) d.cluster 5000 =
      ([d.cluster, chainNext mem top d.cluster],
        clusterData mem top d.cluster ++
          (clusterData mem top (chainNext mem top d.cluster)).take 904, true) := by
    rw [show k + 2 = (k + 1) + 1 from rfl,
      chainWalk_succ mem top (k + 1) d.cluster 5000 hb1 hs1,
      chainWalk_term mem top k (chainNext mem top d.cluster) (5000 - min 5000 4096)
        hb2 hterm,
      e0, e1, e2, htake]
  constructor
  · rw [downloadRun.eq_def, hfind]
    dsimp only
    rw [hlen, hw]
    rfl
  · rw [List.length_append, List.length_take, clusterData, clusterData,
      length_readBytes, length_readBytes]
    omega

/-- C2 witness: on `memTwoCluster` the file "A" has length 5000 and
chain 1 → 2 → terminal: `download` returns clusters `[1, 2]` and the
4096 bytes of cluster 1 followed by 904 bytes of cluster 2, 5000 bytes
in all. -/
theorem download_two_clusters_witness :
    downloadRun memTwoCluster 0 2 [65] =
      Except.ok ([1, 2],
        clusterData memTwoCluster 0 1 ++ (clusterData memTwoCluster 0 2).take 904) ∧
    (clusterData memTwoCluster 0 1 ++
      (clusterData memTwoCluster 0 2).take 904).length = 5000 :=
  download_two_clusters memTwoCluster 0 2 [65] ⟨[65], 1, 5000⟩ (by decide) (by decide)
    (by decide) (by decide) (by decide) (by decide) (by decide)

end Piecer
